import Mathlib

/-!
Verification development for the `f2elint` scan orchestrator
(`src/packages/f2elint/src/actions/scan.ts`).

The TypeScript source is shallowly embedded below.  Pure string helpers
(`path.extname`, JS `String.prototype.trim`, `split(/\r?\n/)`, ...) are
modelled as structurally recursive functions over `List Char` so that the
kernel can evaluate them on concrete inputs.  The external collaborators
(the lint engines, `glob.sync`, `require`, `execa`, `prettier`) are modelled
as an explicit environment of oracle functions, and the filesystem as a map
from resolved paths to optional file contents.
-/

namespace F2ELint

/-- JS whitespace characters relevant to `String.prototype.trim` for the
inputs handled here (space, tab, CR, LF). -/
def isWS (c : Char) : Bool :=
  c = ' ' || c = '\t' || c = '\r' || c = '\n'

/-- Drop leading whitespace (left part of JS `trim`). -/
def trimL (cs : List Char) : List Char := cs.dropWhile isWS

/-- Drop trailing whitespace (right part of JS `trim`). -/
def trimR (cs : List Char) : List Char := (trimL cs.reverse).reverse

/-- JS `String.prototype.trim` on the character list. -/
def trimChars (cs : List Char) : List Char := trimR (trimL cs)

/-- JS `str.trim()`. -/
def jsTrim (s : String) : String := ⟨trimChars s.data⟩

/-- Model of `content.split(/\r?\n/)`: split on `\n`, also consuming an immediately
preceding `\r`. -/
def splitLinesAux : List Char → List Char → List (List Char)
  | [], acc => [acc.reverse]
  | '\r' :: '\n' :: rest, acc => acc.reverse :: splitLinesAux rest []
  | '\n' :: rest, acc => acc.reverse :: splitLinesAux rest []
  | c :: rest, acc => splitLinesAux rest (c :: acc)

/-- Model of `content.split(/\r?\n/)` on strings. -/
def splitLines (s : String) : List String :=
  (splitLinesAux s.data []).map (fun cs => ⟨cs⟩)

/-- JS string truthiness test used by `filter((str) => str && ...)`:
a string is truthy iff it is nonempty. -/
def strTruthy (s : String) : Bool := !s.data.isEmpty

/-- Model of `str.startsWith('#')`. -/
def startsHash (s : String) : Bool :=
  match s.data with
  | '#' :: _ => true
  | _ => false

/-- Suffix of `cs` beginning at its last `'.'`, if any. -/
def lastDotSuffix : List Char → Option (List Char)
  | [] => none
  | c :: rest =>
    match lastDotSuffix rest with
    | some s => some s
    | none => if c = '.' then some (c :: rest) else none

/-- Suffix of `cs` strictly after its last `'/'`, if any `'/'` occurs. -/
def afterLastSlash : List Char → Option (List Char)
  | [] => none
  | c :: rest =>
    match afterLastSlash rest with
    | some s => some s
    | none => if c = '/' then some rest else none

/-- The basename of a path: everything after the last `'/'`. -/
def basenameChars (cs : List Char) : List Char :=
  match afterLastSlash cs with
  | some s => s
  | none => cs

/-- Node `path.extname`: the extension of the basename, from its last dot;
a dot at position 0 of the basename (dotfiles) yields the empty string. -/
def extname (name : String) : String :=
  match basenameChars name.data with
  | [] => ""
  | _ :: rest =>
    match lastDotSuffix rest with
    | none => ""
    | some suf => ⟨suf⟩

/-- Model of `t.replace(/^\./, '')`: strip one leading dot. -/
def stripDot (t : String) : String :=
  match t.data with
  | '.' :: rest => ⟨rest⟩
  | _ => t

/-- Comma-join, as in `ext.map(...).join(',')`. -/
def joinComma : List String → String
  | [] => ""
  | [s] => s
  | s :: rest => s ++ "," ++ joinComma rest

/-- The brace pattern `**/*.{e1,e2,...}` built by `getLintFiles` (and rebuilt
verbatim by the post-fix prettier block) from an extension list. -/
def extPattern (ext : List String) : String :=
  "**/*.\x7b" ++ joinComma (ext.map stripDot) ++ "\x7d"

/-- Simplified model of Node `path.resolve(a, b)` for the relative segments
used in `scan.ts`: join with a single separator. -/
def pathJoin (a b : String) : String := a ++ "/" ++ b

/-- Name of the tool package (`PKG_NAME` from `src/utils/constants`): used to
locate the project config file and to name the report file. -/
def PKG_NAME : String := "f2elint"

/-- Modelled from the spec: `ESLINT_FILE_EXT` lives in `src/utils/constants`,
which is not part of the provided sources.  The spec's scenario requires the
script-lint extension set to contain `.ts` and to be the JS/TS family. -/
def ESLINT_FILE_EXT : List String := [".js", ".jsx", ".ts", ".tsx", ".vue"]

/-- Modelled from the spec: `STYLELINT_FILE_EXT` lives in `src/utils/constants`,
which is not part of the provided sources.  The spec's scenario requires the
style-lint extension set to contain `.css` and to be the stylesheet family. -/
def STYLELINT_FILE_EXT : List String := [".css", ".scss", ".less", ".acss"]

/-- Modelled from the spec: `MARKDOWN_LINT_FILE_EXT` lives in
`src/utils/constants`, which is not part of the provided sources; markdown
files are `.md`. -/
def MARKDOWN_LINT_FILE_EXT : List String := [".md"]

/-- Run-level error (the `Error` objects pushed onto `runErrors`),
modelled by its message. -/
def Err := String
deriving instance DecidableEq, Inhabited for Err

/-- Severity of one normalized finding. -/
inductive Severity where
  | error : Severity
  | warning : Severity
  deriving DecidableEq

/-- Modelled from the spec: the normalized `Finding` record of `src/types`
(not under the provided sources): file path, line/column when known,
severity, message, rule identifier. -/
structure Finding where
  filePath : String
  line : Option Nat
  column : Option Nat
  severity : Severity
  message : String
  rule : String
  deriving DecidableEq

/-- Modelled from the spec: the normalized `ScanResult` record of `src/types`
(not under the provided sources): a file path, a list of findings, an error
count and a warning count. -/
structure ScanResult where
  filePath : String
  messages : List Finding
  errorCount : Nat
  warningCount : Nat
  deriving DecidableEq

/-- The terminal `ScanReport` value returned by `scan`. -/
structure ScanReport where
  results : List ScanResult
  errorCount : Nat
  warningCount : Nat
  runErrors : List Err
  deriving DecidableEq

/-- Project manifest (`PKG`): key-value data, opaque to the orchestrator. -/
def PKG := List (String × String)
deriving instance DecidableEq, Inhabited for PKG

/-- The `f2elint.config.js` toggle object.  A key absent from the loaded
object is `none`; JS `cfg.enableX !== false` is `¬ (enableX = some false)`
and truthiness of `cfg.enablePrettier` is `enablePrettier = some true`. -/
structure Config where
  enablePrettier : Option Bool := none
  enableStylelint : Option Bool := none
  enableMarkdownlint : Option Bool := none
  deriving DecidableEq

/-- The `ScanOptions` input.  `includeDir` is the source's `include` field
(`include` is a reserved word in Lean). -/
structure ScanOptions where
  cwd : String
  includeDir : String
  files : Option (List String) := none
  quiet : Bool := false
  fix : Bool := false
  outputReport : Bool := false

/-- The filesystem: resolved path to optional file contents. -/
def FS := String → Option String

/-- The type `string | string[]` returned by `getLintFiles`: either a glob
pattern (`inl`) or an explicit file list (`inr`). -/
def FileSpec := Sum String (List String)
deriving instance DecidableEq for FileSpec

/-- JSON values, for the report file written by `fs.outputFile`.
`JSON.stringify(results, null, 2)` is modelled at the JSON-value level
(pretty-printing whitespace is immaterial to parsing). -/
inductive Json where
  | null : Json
  | str : String → Json
  | num : Nat → Json
  | arr : List Json → Json
  | obj : List (String × Json) → Json

/-- The external collaborators of `scan.ts`, as oracle functions: the three
lint engines together with their config derivation and normalization
(`src/lints/*`, external to the orchestrator), the module loader used by
`readConfigFile`, `glob.sync` (cwd, pattern, ignore list — the directory
tree it expands against is implicit in the oracle), the post-fix `execa`
prettier subprocess, and `process.cwd()`. -/
structure Env where
  requirePkg : String → PKG
  requireConfig : String → Config
  globSync : String → String → List String → List String
  eslintRun : ScanOptions → PKG → Config → FileSpec → Except Err (List ScanResult)
  stylelintRun : ScanOptions → PKG → Config → FileSpec → Except Err (List ScanResult)
  markdownRun : ScanOptions → FileSpec → Except Err (List ScanResult)
  execaPrettier : FileSpec → Except Err Unit
  processCwd : String

/-- Function `getLintFiles` (scan.ts lines 19-24): filter an explicit file list by
extension, or build the brace glob rooted at `cwd/include`. -/
def getLintFiles (opts : ScanOptions) (ext : List String) : FileSpec :=
  match opts.files with
  | some files => .inr (files.filter (fun name => ext.contains (extname name)))
  | none => .inl (pathJoin (pathJoin opts.cwd opts.includeDir) (extPattern ext))

/-- Function `readConfigFile` (scan.ts lines 25-28): `require` the file when it
exists, else the empty value (`\x7b\x7d`). -/
def readConfigFile {A : Type} (fs : FS) (cwd : String) (requireAt : String → A)
    (emptyVal : A) (pth : String) : A :=
  let localPath := pathJoin cwd pth
  if (fs localPath).isSome then requireAt localPath else emptyVal

/-- The filter applied to ignore-file lines:
`(str) => str && !str.startsWith('#')`. -/
def keepIgnoreLine (s : String) : Bool := strTruthy s && !startsHash s

/-- Function `readIgnore` (scan.ts lines 29-39): read the ignore file if present,
split on `\r?\n`, trim every line, and keep nonempty non-`#` lines. -/
def readIgnore (fs : FS) (cwd : String) (filepath : String) : List String :=
  let localPath := pathJoin cwd filepath
  match fs localPath with
  | some content => ((splitLines content).map jsTrim).filter keepIgnoreLine
  | none => []

/-- The error thrown by `fs.readFileSync` on a missing/unreadable file. -/
def enoent (f : String) : Err := "ENOENT: no such file or directory, open " ++ f

/-- The synchronous reads of the pre-fix prettier pass (scan.ts lines 53-59):
`files.forEach` reads each file with `fs.readFileSync`; the first failing
read throws, skipping the remaining files.  The per-file reformat and
rewrite happen inside an un-awaited `prettier.resolveConfig(..).then(..)`,
so their failures are unhandled rejections and cannot abort the pass;
only the reads are modelled.  Returns the successfully read files and the
outcome. -/
def preFmtReadAll (fs : FS) : List String → List String × Except Err Unit
  | [] => ([], .ok ())
  | f :: rest =>
    match fs f with
    | none => ([], .error (enoent f))
    | some _ =>
      let r := preFmtReadAll fs rest
      (f :: r.1, r.2)

/-- The binding `const pkg: PKG = readConfigFile('package.json')` (scan.ts line 40). -/
def loadedPkg (env : Env) (fs : FS) (cwd : String) : PKG :=
  readConfigFile fs cwd env.requirePkg [] "package.json"

/-- The binding `const config: Config = readConfigFile('f2elint.config.js')`
(scan.ts line 41). -/
def loadedConfig (env : Env) (fs : FS) (cwd : String) : Config :=
  readConfigFile fs cwd env.requireConfig {} (PKG_NAME ++ ".config.js")

/-- Guard of the pre-fix prettier pass (scan.ts line 48):
`fix && config.enablePrettier !== false`. -/
def preFmtEnabled (opts : ScanOptions) (config : Config) : Bool :=
  opts.fix && !(config.enablePrettier == some false)

/-- File list of the pre-fix prettier pass (scan.ts lines 49-52), when the
pass runs: the combined script+style file set, a glob pattern being expanded
with the two linter ignore lists. -/
def preFmtFileList (opts : ScanOptions) (env : Env) (fs : FS) : Option (List String) :=
  if preFmtEnabled opts (loadedConfig env fs opts.cwd) then
    some (match getLintFiles opts (ESLINT_FILE_EXT ++ STYLELINT_FILE_EXT) with
      | .inl pat =>
        env.globSync opts.cwd pat
          (readIgnore fs opts.cwd ".eslintignore" ++ readIgnore fs opts.cwd ".stylelintignore")
      | .inr l => l)
  else none

/-- Outcome of the pre-fix prettier pass: files read, and either success or
the first thrown read error. -/
def preFmtOutcome (opts : ScanOptions) (env : Env) (fs : FS) : List String × Except Err Unit :=
  match preFmtFileList opts env fs with
  | some l => preFmtReadAll fs l
  | none => ([], .ok ())

/-- Guard of the post-fix prettier invocation (scan.ts line 104):
`config.enablePrettier && options.fix` — the toggle must be explicitly
truthy here, unlike the pre-fix guard. -/
def postFmtEnabled (opts : ScanOptions) (config : Config) : Bool :=
  (config.enablePrettier == some true) && opts.fix

/-- File set of the markdown pass (scan.ts lines 90-92): the filtered
explicit list when one was given, else a whole-project `**/*.md` glob with
the fixed `node_modules/**` ignore. -/
def markdownFileSpec (opts : ScanOptions) (env : Env) : FileSpec :=
  match opts.files with
  | some _ => getLintFiles opts MARKDOWN_LINT_FILE_EXT
  | none => .inr (env.globSync opts.cwd "**/*.md" ["node_modules/**"])

/-- File set of the post-fix prettier invocation (scan.ts lines 106-112):
the filtered explicit list when one was given, else a whole-project brace
glob (not rooted at `include`) with the fixed `node_modules/**` ignore. -/
def postFmtFileSpec (opts : ScanOptions) (env : Env) : FileSpec :=
  match opts.files with
  | some _ => getLintFiles opts (ESLINT_FILE_EXT ++ STYLELINT_FILE_EXT)
  | none =>
    .inr (env.globSync opts.cwd
      (extPattern (ESLINT_FILE_EXT ++ STYLELINT_FILE_EXT)) ["node_modules/**"])

/-- The try/catch-and-append discipline of each lint pass: on success append
the normalized results (`results = results.concat(...)`), on a throw append
the error (`runErrors.push(e)`). -/
def appendOutcome (acc : List ScanResult × List Err)
    (out : Except Err (List ScanResult)) : List ScanResult × List Err :=
  match out with
  | .ok rs => (acc.1 ++ rs, acc.2)
  | .error e => (acc.1, acc.2 ++ [e])

/-- JSON encoding of an optional number (`undefined` columns are emitted as
`null` in the normalized records). -/
def encodeOptNat : Option Nat → Json
  | none => Json.null
  | some n => Json.num n

/-- Severity as serialized. -/
def severityStr : Severity → String
  | .error => "error"
  | .warning => "warning"

/-- JSON encoding of one `Finding`, field for field. -/
def encodeFinding (f : Finding) : Json :=
  Json.obj [("filePath", Json.str f.filePath), ("line", encodeOptNat f.line),
    ("column", encodeOptNat f.column), ("severity", Json.str (severityStr f.severity)),
    ("message", Json.str f.message), ("rule", Json.str f.rule)]

/-- JSON encoding of one `ScanResult`, field for field — the shape
`JSON.stringify(results, null, 2)` writes for each element. -/
def encodeScanResult (r : ScanResult) : Json :=
  Json.obj [("filePath", Json.str r.filePath),
    ("messages", Json.arr (r.messages.map encodeFinding)),
    ("errorCount", Json.num r.errorCount),
    ("warningCount", Json.num r.warningCount)]

/-- Instrumentation of one invocation: which passes ran and what file set
each received, plus the report write.  `none` / `false` fields of passes
after a pre-fix abort mean the pass never executed. -/
structure Trace where
  preFmtRan : Bool
  preFmtFileList : Option (List String)
  preFmtReads : List String
  eslintFiles : Option FileSpec
  stylelintFiles : Option FileSpec
  markdownFiles : Option FileSpec
  postFmtRan : Bool
  postFmtFiles : Option FileSpec
  reportPath : Option String
  reportJson : Option Json

/-- The scan orchestrator (the `export default async` function of `scan.ts`),
paired with its execution trace.  `.error e` models a rejection of the
returned promise (the un-caught throw of the pre-fix prettier pass); all
four later passes are individually try/catch-wrapped in the source and
cannot reject it. -/
def scan (opts : ScanOptions) (env : Env) (fs : FS) : Except Err ScanReport × Trace :=
  let cwd := opts.cwd
  let pkg := loadedPkg env fs cwd
  let config := loadedConfig env fs cwd
  let pf := preFmtOutcome opts env fs
  match pf.2 with
  | .error e =>
    (.error e,
     { preFmtRan := preFmtEnabled opts config,
       preFmtFileList := preFmtFileList opts env fs,
       preFmtReads := pf.1,
       eslintFiles := none, stylelintFiles := none, markdownFiles := none,
       postFmtRan := false, postFmtFiles := none,
       reportPath := none, reportJson := none })
  | .ok _ =>
    let eslintFiles := getLintFiles opts ESLINT_FILE_EXT
    let acc1 := appendOutcome ([], []) (env.eslintRun opts pkg config eslintFiles)
    let styleFiles : Option FileSpec :=
      if !(config.enableStylelint == some false) then some (getLintFiles opts STYLELINT_FILE_EXT)
      else none
    let acc2 :=
      match styleFiles with
      | some f => appendOutcome acc1 (env.stylelintRun opts pkg config f)
      | none => acc1
    let mdFiles : Option FileSpec :=
      if !(config.enableMarkdownlint == some false) then some (markdownFileSpec opts env)
      else none
    let acc3 :=
      match mdFiles with
      | some f => appendOutcome acc2 (env.markdownRun opts f)
      | none => acc2
    let postFiles : Option FileSpec :=
      if postFmtEnabled opts config then some (postFmtFileSpec opts env) else none
    let acc4 :=
      match postFiles with
      | some f =>
        match env.execaPrettier f with
        | .ok _ => acc3
        | .error e => (acc3.1, acc3.2 ++ [e])
      | none => acc3
    (.ok { results := acc4.1,
           errorCount := acc4.1.foldl (fun count r => count + r.errorCount) 0,
           warningCount := acc4.1.foldl (fun count r => count + r.warningCount) 0,
           runErrors := acc4.2 },
     { preFmtRan := preFmtEnabled opts config,
       preFmtFileList := preFmtFileList opts env fs,
       preFmtReads := pf.1,
       eslintFiles := some eslintFiles,
       stylelintFiles := styleFiles,
       markdownFiles := mdFiles,
       postFmtRan := postFmtEnabled opts config,
       postFmtFiles := postFiles,
       reportPath := if opts.outputReport
         then some (pathJoin env.processCwd (PKG_NAME ++ "-report.json")) else none,
       reportJson := if opts.outputReport
         then some (Json.arr (acc4.1.map encodeScanResult)) else none })

/-! ### Decoding the written report (the `JSON.parse` direction of C9) -/

/-- Decode an optional number. -/
def decodeOptNat : Json → Option (Option Nat)
  | Json.null => some none
  | Json.num n => some (some n)
  | _ => none

/-- Decode a severity string. -/
def decodeSeverity : String → Option Severity
  | "error" => some Severity.error
  | "warning" => some Severity.warning
  | _ => none

/-- Decode one serialized `Finding`. -/
def decodeFinding : Json → Option Finding
  | Json.obj [("filePath", Json.str fp), ("line", lj), ("column", cj),
      ("severity", Json.str sev), ("message", Json.str msg), ("rule", Json.str rule)] =>
    match decodeOptNat lj, decodeOptNat cj, decodeSeverity sev with
    | some l, some c, some s => some ⟨fp, l, c, s, msg, rule⟩
    | _, _, _ => none
  | _ => none

/-- Option-valued traversal of a list. -/
def traverseOpt {A B : Type} (f : A → Option B) : List A → Option (List B)
  | [] => some []
  | a :: rest =>
    match f a, traverseOpt f rest with
    | some b, some bs => some (b :: bs)
    | _, _ => none

/-- Decode one serialized `ScanResult`. -/
def decodeScanResult : Json → Option ScanResult
  | Json.obj [("filePath", Json.str fp), ("messages", Json.arr ms),
      ("errorCount", Json.num ec), ("warningCount", Json.num wc)] =>
    match traverseOpt decodeFinding ms with
    | some fsnd => some ⟨fp, fsnd, ec, wc⟩
    | none => none
  | _ => none

/-- Parse the report file content back into the `ScanResult` sequence. -/
def decodeResults : Json → Option (List ScanResult)
  | Json.arr xs => traverseOpt decodeScanResult xs
  | _ => none

/-! ### Per-pass outcomes, used to state the isolation claims.

These restate each pass of `scan` as an independent computation; the
characterization lemma below proves that `scan`'s sequential accumulation
equals their concatenation. -/

/-- Results a successful pass contributes; a thrown pass contributes none. -/
def okList : Except Err (List ScanResult) → List ScanResult
  | .ok rs => rs
  | .error _ => []

/-- The `runErrors` entries a pass contributes: exactly one when it throws. -/
def errListOf : Except Err (List ScanResult) → List Err
  | .ok _ => []
  | .error e => [e]

/-- The `runErrors` entries of the post-fix prettier invocation. -/
def unitErrList : Except Err Unit → List Err
  | .ok _ => []
  | .error e => [e]

/-- Outcome of the script-lint pass (always attempted). -/
def eslintPass (opts : ScanOptions) (env : Env) (fs : FS) : Except Err (List ScanResult) :=
  env.eslintRun opts (loadedPkg env fs opts.cwd) (loadedConfig env fs opts.cwd)
    (getLintFiles opts ESLINT_FILE_EXT)

/-- Outcome of the style-lint pass; a skipped pass contributes nothing. -/
def stylePass (opts : ScanOptions) (env : Env) (fs : FS) : Except Err (List ScanResult) :=
  if !((loadedConfig env fs opts.cwd).enableStylelint == some false) then
    env.stylelintRun opts (loadedPkg env fs opts.cwd) (loadedConfig env fs opts.cwd)
      (getLintFiles opts STYLELINT_FILE_EXT)
  else .ok []

/-- Outcome of the markdown-lint pass; a skipped pass contributes nothing. -/
def mdPass (opts : ScanOptions) (env : Env) (fs : FS) : Except Err (List ScanResult) :=
  if !((loadedConfig env fs opts.cwd).enableMarkdownlint == some false) then
    env.markdownRun opts (markdownFileSpec opts env)
  else .ok []

/-- Outcome of the post-fix prettier invocation; skipped contributes nothing. -/
def postPass (opts : ScanOptions) (env : Env) (fs : FS) : Except Err Unit :=
  if postFmtEnabled opts (loadedConfig env fs opts.cwd) then
    env.execaPrettier (postFmtFileSpec opts env)
  else .ok ()

/-- The result sequence of a completed invocation: contributions of the
three lint passes, in pass order. -/
def scanResultsOf (opts : ScanOptions) (env : Env) (fs : FS) : List ScanResult :=
  okList (eslintPass opts env fs) ++ okList (stylePass opts env fs) ++ okList (mdPass opts env fs)

/-- The `runErrors` of a completed invocation: one entry per throwing pass,
in pass order. -/
def scanErrsOf (opts : ScanOptions) (env : Env) (fs : FS) : List Err :=
  errListOf (eslintPass opts env fs) ++ errListOf (stylePass opts env fs) ++
    errListOf (mdPass opts env fs) ++ unitErrList (postPass opts env fs)

/-- The report `scan` builds from accumulated results and errors
(scan.ts lines 125-130): both totals recomputed by a `reduce` over
`results`. -/
def mkReport (rs : List ScanResult) (es : List Err) : ScanReport :=
  { results := rs,
    errorCount := rs.foldl (fun count r => count + r.errorCount) 0,
    warningCount := rs.foldl (fun count r => count + r.warningCount) 0,
    runErrors := es }

/-- The trace of a completed (non-aborted) invocation. -/
def okTrace (opts : ScanOptions) (env : Env) (fs : FS) : Trace :=
  { preFmtRan := preFmtEnabled opts (loadedConfig env fs opts.cwd),
    preFmtFileList := preFmtFileList opts env fs,
    preFmtReads := (preFmtOutcome opts env fs).1,
    eslintFiles := some (getLintFiles opts ESLINT_FILE_EXT),
    stylelintFiles := if !((loadedConfig env fs opts.cwd).enableStylelint == some false)
      then some (getLintFiles opts STYLELINT_FILE_EXT) else none,
    markdownFiles := if !((loadedConfig env fs opts.cwd).enableMarkdownlint == some false)
      then some (markdownFileSpec opts env) else none,
    postFmtRan := postFmtEnabled opts (loadedConfig env fs opts.cwd),
    postFmtFiles := if postFmtEnabled opts (loadedConfig env fs opts.cwd)
      then some (postFmtFileSpec opts env) else none,
    reportPath := if opts.outputReport
      then some (pathJoin env.processCwd (PKG_NAME ++ "-report.json")) else none,
    reportJson := if opts.outputReport
      then some (Json.arr ((scanResultsOf opts env fs).map encodeScanResult)) else none }

/-- The trace of an invocation aborted by the pre-fix prettier pass: no
later pass executed, no report was written. -/
def abortTrace (opts : ScanOptions) (env : Env) (fs : FS) : Trace :=
  { preFmtRan := preFmtEnabled opts (loadedConfig env fs opts.cwd),
    preFmtFileList := preFmtFileList opts env fs,
    preFmtReads := (preFmtOutcome opts env fs).1,
    eslintFiles := none, stylelintFiles := none, markdownFiles := none,
    postFmtRan := false, postFmtFiles := none,
    reportPath := none, reportJson := none }

/-! ### Glob matching of the extension brace patterns (for C5) -/

/-- Whether `suffixStr` is a literal suffix of `s`. -/
def jsEndsWith (s suffixStr : String) : Bool :=
  List.isPrefixOf suffixStr.data.reverse s.data.reverse

/-- Modelled from the spec (glob is an external collaborator, specified only
via the interface the core uses): matching of the extension brace patterns
`**/*.\x7be1,e2,...\x7d` built by `extPattern` against a file name.
minimatch expands a nonempty brace to its alternatives — the name must end
in `.` followed by one of them — while an empty brace `\x7b\x7d` is not a
valid brace expansion and remains a literal suffix, so the empty-extension
pattern matches only names literally ending in `.\x7b\x7d`, never all
files. -/
def extPatternMatches (ext : List String) (name : String) : Bool :=
  match ext.map stripDot with
  | [] => jsEndsWith name ".\x7b\x7d"
  | alts => alts.any (fun a => jsEndsWith name ("." ++ a))

/-! ### Concrete inputs used by witnesses and counterexamples -/

/-- An environment in which every engine succeeds with no findings. -/
def envNil : Env :=
  { requirePkg := fun _ => [],
    requireConfig := fun _ => {},
    globSync := fun _ _ _ => [],
    eslintRun := fun _ _ _ _ => .ok [],
    stylelintRun := fun _ _ _ _ => .ok [],
    markdownRun := fun _ _ => .ok [],
    execaPrettier := fun _ => .ok (),
    processCwd := "proc" }

/-- An empty filesystem. -/
def fsEmpty : FS := fun _ => none

/-- One style-lint finding record. -/
def findingW : Finding :=
  { filePath := "b.css", line := some 3, column := none,
    severity := Severity.error, message := "bad color", rule := "color-no-invalid-hex" }

/-- One style-lint result record. -/
def resultStyleW : ScanResult :=
  { filePath := "b.css", messages := [findingW], errorCount := 1, warningCount := 0 }

/-- One markdown-lint result record. -/
def resultMdW : ScanResult :=
  { filePath := "c.md", messages := [], errorCount := 0, warningCount := 2 }

/-- Options with an explicit file list (the spec's C6 scenario). -/
def optsListW : ScanOptions :=
  { cwd := "proj", includeDir := "src", files := some ["a.ts", "b.css", "c.md"] }

/-- Options without an explicit file list. -/
def optsGlobW : ScanOptions := { cwd := "proj", includeDir := "src" }

/-- Options with the fix flag and an explicit one-file list. -/
def optsFixW : ScanOptions :=
  { cwd := "proj", includeDir := "src", files := some ["a.ts"], fix := true }

/-- An environment whose script-lint engine throws and whose other engines
return one result each. -/
def envThrowW : Env :=
  { envNil with
    eslintRun := fun _ _ _ _ => .error "eslint crashed",
    stylelintRun := fun _ _ _ _ => .ok [resultStyleW],
    markdownRun := fun _ _ => .ok [resultMdW] }

/-- An environment whose script-lint engine reports one result. -/
def envResW : Env :=
  { envNil with stylelintRun := fun _ _ _ _ => .ok [resultStyleW] }

/-- A filesystem holding only the file `a.ts` (at its unresolved list path,
as read by the pre-fix pass). -/
def fsAtsW : FS := fun p => if p = "a.ts" then some "let x = 1" else none

/-- A filesystem holding only a project config file. -/
def fsCfgW : FS := fun p => if p = "proj/f2elint.config.js" then some "module" else none

/-- An environment whose loaded config disables stylelint. -/
def envStyleOffW : Env :=
  { envThrowW with requireConfig := fun _ => { enableStylelint := some false } }

/-- A filesystem holding one `.eslintignore` file with blanks, comments and
padded lines. -/
def fsIgnW : FS :=
  fun p => if p = "proj/.eslintignore" then some "  a.js \r\n\n# c\nb.js\n\t" else none

/-- Options for the C9 witness: explicit file list, report requested. -/
def optsRepW : ScanOptions := { optsListW with outputReport := true }

/-- Options for the C10 counterexample: fix requested, no explicit files. -/
def optsTenW : ScanOptions := { cwd := "proj", includeDir := "src", fix := true }

/-- Environment for the C10 counterexample: expanding the pre-fix glob with
an empty ignore list reveals `ghost.ts` (absent from the filesystem), while
any nonempty ignore list hides it. -/
def envTenW : Env :=
  { envNil with globSync := fun _ _ ign => if ign.isEmpty then ["ghost.ts"] else [] }

/-- First C10 filesystem: `.eslintignore` holds one pattern. -/
def fsTenA : FS := fun p => if p = "proj/.eslintignore" then some "skip.ts" else none

/-- Second C10 filesystem: identical to `fsTenA` except that the contents of
`.eslintignore` are blank — the two differ only at that ignore path. -/
def fsTenB : FS :=
  fun p => if p = pathJoin "proj" ".eslintignore" then some "" else fsTenA p

/-- The report produced by `scan optsListW envResW fsEmpty`. -/
def repW : ScanReport :=
  { results := [resultStyleW], errorCount := 1, warningCount := 0, runErrors := [] }

/-! ## Characterization of `scan` -/

/-- The append discipline splits into result and error contributions. -/
lemma appendOutcome_eq (acc : List ScanResult × List Err) (out : Except Err (List ScanResult)) :
    appendOutcome acc out = (acc.1 ++ okList out, acc.2 ++ errListOf out) := by
  cases out <;> simp [appendOutcome, okList, errListOf]

/-- A throw of the pre-fix prettier pass rejects the whole invocation: no
report, and no later pass executes. -/
lemma scan_err {opts : ScanOptions} {env : Env} {fs : FS} {e : Err}
    (h : (preFmtOutcome opts env fs).2 = .error e) :
    scan opts env fs = (.error e, abortTrace opts env fs) := by
  simp only [scan]
  rw [h]
  rfl

/-- When the pre-fix prettier pass completes, `scan` returns a report whose
results and runErrors are the concatenated contributions of the four
wrapped passes, in pass order, together with the completed trace. -/
lemma scan_ok {opts : ScanOptions} {env : Env} {fs : FS}
    (h : (preFmtOutcome opts env fs).2 = .ok ()) :
    scan opts env fs =
      (.ok (mkReport (scanResultsOf opts env fs) (scanErrsOf opts env fs)),
       okTrace opts env fs) := by
  simp only [scan]
  rw [h]
  cases he : env.eslintRun opts (loadedPkg env fs opts.cwd) (loadedConfig env fs opts.cwd)
      (getLintFiles opts ESLINT_FILE_EXT) <;>
    cases hs : (loadedConfig env fs opts.cwd).enableStylelint == some false <;>
      cases hst : env.stylelintRun opts (loadedPkg env fs opts.cwd)
          (loadedConfig env fs opts.cwd) (getLintFiles opts STYLELINT_FILE_EXT) <;>
        cases hm : (loadedConfig env fs opts.cwd).enableMarkdownlint == some false <;>
          cases hmd : env.markdownRun opts (markdownFileSpec opts env) <;>
            cases hp : postFmtEnabled opts (loadedConfig env fs opts.cwd) <;>
              cases hpo : env.execaPrettier (postFmtFileSpec opts env) <;>
                simp [mkReport, okTrace, scanResultsOf, scanErrsOf, eslintPass, stylePass,
                  mdPass, postPass, appendOutcome, okList, errListOf, unitErrList,
                  he, hs, hst, hm, hmd, hp, hpo]

/-! ## Supporting lemmas -/

/-- A `reduce`-style left fold of counts equals the sum of the mapped counts. -/
lemma foldl_add_count (g : ScanResult → Nat) (l : List ScanResult) :
    ∀ n : Nat, l.foldl (fun count r => count + g r) n = n + (l.map g).sum := by
  induction l with
  | nil => intro n; simp
  | cons r rest ih => intro n; simp [ih, Nat.add_assoc]

/-- The first missing file of the pre-fix read sequence aborts it: the files
before it are read, the files after it are skipped. -/
lemma preFmtReadAll_break {fs : FS} {bad : String} (hbad : fs bad = none) :
    ∀ l₁ : List String, (∀ f ∈ l₁, (fs f).isSome) → ∀ l₂,
      preFmtReadAll fs (l₁ ++ bad :: l₂) = (l₁, .error (enoent bad)) := by
  intro l₁
  induction l₁ with
  | nil => intro _ l₂; simp [preFmtReadAll, hbad]
  | cons f rest ih =>
    intro hall l₂
    have hf : (fs f).isSome := hall f (by simp)
    obtain ⟨v, hv⟩ := Option.isSome_iff_exists.mp hf
    have hrest := ih (fun g hg => hall g (by simp [hg])) l₂
    simp [preFmtReadAll, hv, hrest]

/-- The head surviving `dropWhile` fails the predicate. -/
lemma dropWhile_head_false {p : Char → Bool} :
    ∀ {l : List Char} {c : Char} {cs : List Char}, l.dropWhile p = c :: cs → p c = false := by
  intro l
  induction l with
  | nil => intro c cs h; simp [List.dropWhile] at h
  | cons a t ih =>
    intro c cs h
    by_cases ha : p a
    · rw [List.dropWhile_cons_of_pos ha] at h; exact ih h
    · rw [List.dropWhile_cons_of_neg ha] at h
      cases h
      simpa using ha

/-- Dropping leading whitespace is idempotent. -/
lemma trimL_idem (cs : List Char) : trimL (trimL cs) = trimL cs := by
  cases h : trimL cs with
  | nil => simp [trimL, List.dropWhile]
  | cons c rest =>
    have hc : isWS c = false := dropWhile_head_false (p := isWS) h
    simp [trimL, List.dropWhile_cons_of_neg (by simp [hc] : ¬ isWS c = true)]

/-- Trimming trailing whitespace is idempotent. -/
lemma trimR_idem (cs : List Char) : trimR (trimR cs) = trimR cs := by
  simp [trimR, trimL_idem]

/-- Trimming leading whitespace never lengthens a list. -/
lemma length_trimL_le (l : List Char) : (trimL l).length ≤ l.length := by
  induction l with
  | nil => simp [trimL, List.dropWhile]
  | cons a t ih =>
    by_cases ha : isWS a
    · simp only [trimL] at ih ⊢
      rw [List.dropWhile_cons_of_pos ha]
      exact Nat.le_succ_of_le ih
    · simp only [trimL]
      rw [List.dropWhile_cons_of_neg ha]

/-- Trimming on the right shortens a list only at its tail: the list is `trimR` plus a rest. -/
lemma trimR_append (cs : List Char) : ∃ t, cs = trimR cs ++ t := by
  refine ⟨(cs.reverse.takeWhile isWS).reverse, ?_⟩
  have h := congrArg List.reverse (List.takeWhile_append_dropWhile (p := isWS) (l := cs.reverse))
  rw [List.reverse_append, List.reverse_reverse] at h
  simp only [trimR, trimL]
  exact h.symm

/-- JS `trim` is idempotent. -/
lemma trimChars_idem (cs : List Char) : trimChars (trimChars cs) = trimChars cs := by
  unfold trimChars
  have hy : trimL (trimL cs) = trimL cs := trimL_idem cs
  set y := trimL cs with hy0
  have htl : trimL (trimR y) = trimR y := by
    cases htr : trimR y with
    | nil => simp [trimL, List.dropWhile]
    | cons c rest =>
      obtain ⟨t, ht⟩ := trimR_append y
      rw [htr] at ht
      have hc : isWS c = false := by
        by_contra hcc
        have hcw : isWS c = true := by simpa using hcc
        have h1 : trimL y = y := hy
        rw [ht, List.cons_append] at h1
        rw [show trimL (c :: (rest ++ t)) = trimL (rest ++ t) from by
          simp only [trimL]; rw [List.dropWhile_cons_of_pos hcw]] at h1
        have hlen := congrArg List.length h1
        have hle := length_trimL_le (rest ++ t)
        simp only [List.length_cons] at hlen
        omega
      simp [trimL, List.dropWhile_cons_of_neg (by simp [hc] : ¬ isWS c = true)]
  rw [htl, trimR_idem]

/-- JS `trim` is idempotent on strings. -/
lemma jsTrim_idem (s : String) : jsTrim (jsTrim s) = jsTrim s := by
  simp [jsTrim, trimChars_idem]

/-- The two `readConfigFile` and `readIgnore` reads look only at their own
path: equal contents there give equal outputs. -/
lemma readIgnore_agree {fs₁ fs₂ : FS} {cwd p : String}
    (h : fs₁ (pathJoin cwd p) = fs₂ (pathJoin cwd p)) :
    readIgnore fs₁ cwd p = readIgnore fs₂ cwd p := by
  simp only [readIgnore]
  rw [h]

/-- Loading the config looks only at the config path. -/
lemma loadedConfig_agree {env : Env} {fs₁ fs₂ : FS} {cwd : String}
    (h : fs₁ (pathJoin cwd (PKG_NAME ++ ".config.js")) = fs₂ (pathJoin cwd (PKG_NAME ++ ".config.js"))) :
    loadedConfig env fs₁ cwd = loadedConfig env fs₂ cwd := by
  simp only [loadedConfig, readConfigFile]
  rw [h]

/-- Joining distinct relative names onto the same base gives distinct paths. -/
lemma pathJoin_ne_of_ne (a : String) {b c : String} (h : b ≠ c) :
    pathJoin a b ≠ pathJoin a c := by
  intro hEq
  apply h
  have hd : (a ++ "/" ++ b).data = (a ++ "/" ++ c).data := congrArg String.data hEq
  have hd2 : (a ++ "/").data ++ b.data = (a ++ "/").data ++ c.data := by
    simpa [String.data_append] using hd
  have hbc : b.data = c.data := List.append_cancel_left hd2
  cases b; cases c; exact congrArg String.mk hbc

/-! ### JSON round trip -/

lemma decodeOptNat_encode (o : Option Nat) : decodeOptNat (encodeOptNat o) = some o := by
  cases o <;> rfl

lemma decodeSeverity_encode (s : Severity) : decodeSeverity (severityStr s) = some s := by
  cases s <;> rfl

lemma decodeFinding_encode (f : Finding) : decodeFinding (encodeFinding f) = some f := by
  cases f
  simp [encodeFinding, decodeFinding, decodeOptNat_encode, decodeSeverity_encode]

lemma traverseOpt_decodeFinding (l : List Finding) :
    traverseOpt decodeFinding (l.map encodeFinding) = some l := by
  induction l with
  | nil => rfl
  | cons f rest ih => simp [traverseOpt, decodeFinding_encode, ih]

lemma decodeScanResult_encode (r : ScanResult) :
    decodeScanResult (encodeScanResult r) = some r := by
  cases r
  simp [encodeScanResult, decodeScanResult, traverseOpt_decodeFinding]

/-- Parsing the serialized result sequence recovers it exactly. -/
lemma decodeResults_encode (l : List ScanResult) :
    decodeResults (Json.arr (l.map encodeScanResult)) = some l := by
  simp only [decodeResults]
  induction l with
  | nil => rfl
  | cons r rest ih => simp [traverseOpt, decodeScanResult_encode, ih]

/-! ## The claims -/

/-- C1: if one of the script-lint, style-lint, markdown-lint, or post-fix
formatter passes throws, the returned ScanReport still contains the
ScanResults produced by every other (non-throwing) pass, and runErrors
contains exactly one entry for the thrown pass; the throw never aborts the
remaining passes.  Formally: whenever the pre-fix pass completes (those
four passes are the try/catch-wrapped ones), `scan` resolves with a report
whose results are the concatenated contributions of the passes — a
throwing pass contributing `[]` and every non-throwing pass its own
results — and whose runErrors hold exactly one entry per throwing pass,
in pass order, regardless of which passes throw. -/
theorem claim_C1_pass_isolation (opts : ScanOptions) (env : Env) (fs : FS)
    (h : (preFmtOutcome opts env fs).2 = .ok ()) :
    ∃ report : ScanReport, (scan opts env fs).1 = .ok report ∧
      report.results = okList (eslintPass opts env fs) ++ okList (stylePass opts env fs) ++
        okList (mdPass opts env fs) ∧
      report.runErrors = errListOf (eslintPass opts env fs) ++ errListOf (stylePass opts env fs) ++
        errListOf (mdPass opts env fs) ++ unitErrList (postPass opts env fs) := by
  refine ⟨mkReport (scanResultsOf opts env fs) (scanErrsOf opts env fs), ?_, rfl, rfl⟩
  rw [scan_ok h]

/-- Witness for C1: with the script-lint engine throwing and the other two
engines succeeding, the report keeps both other results and holds exactly
the one eslint error. -/
theorem claim_C1_witness :
    (preFmtOutcome optsListW envThrowW fsEmpty).2 = .ok () ∧
    ∃ report : ScanReport, (scan optsListW envThrowW fsEmpty).1 = .ok report ∧
      report.results = okList (eslintPass optsListW envThrowW fsEmpty) ++
        okList (stylePass optsListW envThrowW fsEmpty) ++
        okList (mdPass optsListW envThrowW fsEmpty) ∧
      report.runErrors = errListOf (eslintPass optsListW envThrowW fsEmpty) ++
        errListOf (stylePass optsListW envThrowW fsEmpty) ++
        errListOf (mdPass optsListW envThrowW fsEmpty) ++
        unitErrList (postPass optsListW envThrowW fsEmpty) :=
  ⟨rfl, claim_C1_pass_isolation optsListW envThrowW fsEmpty rfl⟩

/-- C2: for every returned ScanReport, `errorCount` and `warningCount` are
the sums of the respective counts over the `results` sequence — recomputed
from `results` by the final `reduce`, not tracked separately. -/
theorem claim_C2_totals_recomputed (opts : ScanOptions) (env : Env) (fs : FS)
    (report : ScanReport) (h : (scan opts env fs).1 = .ok report) :
    report.errorCount = (report.results.map ScanResult.errorCount).sum ∧
    report.warningCount = (report.results.map ScanResult.warningCount).sum := by
  cases hp : (preFmtOutcome opts env fs).2 with
  | error e =>
    rw [scan_err hp] at h
    simp at h
  | ok u =>
    cases u
    rw [scan_ok hp] at h
    simp only [Except.ok.injEq] at h
    subst h
    constructor <;> simp [mkReport, foldl_add_count]

/-- Witness for C2 at a concrete invocation returning one result. -/
theorem claim_C2_witness :
    (scan optsListW envResW fsEmpty).1 = .ok repW ∧
    repW.errorCount = (repW.results.map ScanResult.errorCount).sum ∧
    repW.warningCount = (repW.results.map ScanResult.warningCount).sum :=
  ⟨rfl, claim_C2_totals_recomputed optsListW envResW fsEmpty repW rfl⟩

/-- C7: with `enableStylelint: false` in the loaded config, the style-lint
pass is skipped: the report's results and runErrors are exactly the
contributions of the script-lint, markdown-lint and post-fix passes — no
ScanResult and no runErrors entry originates from style-lint — and no file
set is ever handed to the style-lint engine. -/
theorem claim_C7_stylelint_disabled (opts : ScanOptions) (env : Env) (fs : FS)
    (hcfg : (loadedConfig env fs opts.cwd).enableStylelint = some false)
    (h : (preFmtOutcome opts env fs).2 = .ok ()) :
    ∃ report : ScanReport, (scan opts env fs).1 = .ok report ∧
      report.results = okList (eslintPass opts env fs) ++ okList (mdPass opts env fs) ∧
      report.runErrors = errListOf (eslintPass opts env fs) ++ errListOf (mdPass opts env fs) ++
        unitErrList (postPass opts env fs) ∧
      (scan opts env fs).2.stylelintFiles = none := by
  have hsp : stylePass opts env fs = .ok [] := by simp [stylePass, hcfg]
  refine ⟨mkReport (scanResultsOf opts env fs) (scanErrsOf opts env fs), ?_, ?_, ?_, ?_⟩
  · rw [scan_ok h]
  · simp [mkReport, scanResultsOf, hsp, okList]
  · simp [mkReport, scanErrsOf, hsp, errListOf]
  · rw [scan_ok h]
    simp [okTrace, hcfg]

/-- Witness for C7: a config file disabling stylelint, with the other
engines behaving as in the C1 witness. -/
theorem claim_C7_witness :
    (loadedConfig envStyleOffW fsCfgW optsListW.cwd).enableStylelint = some false ∧
    ∃ report : ScanReport, (scan optsListW envStyleOffW fsCfgW).1 = .ok report ∧
      report.results = okList (eslintPass optsListW envStyleOffW fsCfgW) ++
        okList (mdPass optsListW envStyleOffW fsCfgW) ∧
      report.runErrors = errListOf (eslintPass optsListW envStyleOffW fsCfgW) ++
        errListOf (mdPass optsListW envStyleOffW fsCfgW) ++
        unitErrList (postPass optsListW envStyleOffW fsCfgW) ∧
      (scan optsListW envStyleOffW fsCfgW).2.stylelintFiles = none :=
  ⟨rfl, claim_C7_stylelint_disabled optsListW envStyleOffW fsCfgW rfl rfl⟩

/-- Counterexample to C3: with the fix flag set and no `enablePrettier` key
in the loaded config, the claim says both formatter passes execute; in the
code the pre-fix pass runs (`fix && config.enablePrettier !== false`) but
the post-fix invocation does not (`config.enablePrettier && options.fix`
needs the key explicitly truthy), as this concrete invocation shows. -/
theorem claim_C3_counterexample :
    optsFixW.fix = true ∧
    (loadedConfig envNil fsAtsW optsFixW.cwd).enablePrettier = none ∧
    (scan optsFixW envNil fsAtsW).2.preFmtRan = true ∧
    (scan optsFixW envNil fsAtsW).2.postFmtRan = false :=
  ⟨rfl, rfl, rfl, rfl⟩

/-- C3 as amended: with the fix flag set and no `enablePrettier` key present
(absence meaning enabled applies to the pre-fix guard only), the pre-fix
formatting pass executes but the post-fix formatter invocation does not;
the post-fix invocation requires `enablePrettier` to be explicitly true. -/
theorem claim_C3_amended (opts : ScanOptions) (env : Env) (fs : FS)
    (hfix : opts.fix = true)
    (hcfg : (loadedConfig env fs opts.cwd).enablePrettier = none) :
    (scan opts env fs).2.preFmtRan = true ∧ (scan opts env fs).2.postFmtRan = false := by
  cases hp : (preFmtOutcome opts env fs).2 with
  | error e =>
    rw [scan_err hp]
    exact ⟨by simp [abortTrace, preFmtEnabled, hfix, hcfg], rfl⟩
  | ok u =>
    cases u
    rw [scan_ok hp]
    exact ⟨by simp [okTrace, preFmtEnabled, hfix, hcfg],
           by simp [okTrace, postFmtEnabled, hfix, hcfg]⟩

/-- Witness for the amended C3 at the counterexample's concrete invocation. -/
theorem claim_C3_witness :
    optsFixW.fix = true ∧
    (loadedConfig envNil fsAtsW optsFixW.cwd).enablePrettier = none ∧
    ((scan optsFixW envNil fsAtsW).2.preFmtRan = true ∧
     (scan optsFixW envNil fsAtsW).2.postFmtRan = false) :=
  ⟨rfl, rfl, claim_C3_amended optsFixW envNil fsAtsW rfl rfl⟩

/-- Counterexample to C4: the pre-fix formatting pass runs and its first
file read fails; the claim says the failure stays confined to that pass
(lint passes still execute, a ScanReport is still returned), but in the
code the throw is not caught: the invocation rejects, no report is
returned, and no lint pass executes. -/
theorem claim_C4_counterexample :
    (scan optsFixW envNil fsEmpty).2.preFmtRan = true ∧
    (scan optsFixW envNil fsEmpty).1 = .error (enoent "a.ts") ∧
    (scan optsFixW envNil fsEmpty).2.eslintFiles = none ∧
    (scan optsFixW envNil fsEmpty).2.markdownFiles = none :=
  ⟨rfl, rfl, rfl, rfl⟩

/-- C4 as amended: when the pre-fix formatting pass runs and reading one
file fails, the remaining files of that pass are skipped — but the failure
is not confined to the pass: it propagates, the invocation rejects with
that read error, no ScanReport is returned, and no lint pass executes. -/
theorem claim_C4_amended (opts : ScanOptions) (env : Env) (fs : FS)
    (l₁ : List String) (bad : String) (l₂ : List String)
    (hlist : preFmtFileList opts env fs = some (l₁ ++ bad :: l₂))
    (hok : ∀ f ∈ l₁, (fs f).isSome)
    (hbad : fs bad = none) :
    scan opts env fs = (.error (enoent bad), abortTrace opts env fs) ∧
    (scan opts env fs).2.preFmtReads = l₁ ∧
    (scan opts env fs).2.eslintFiles = none ∧
    (scan opts env fs).2.stylelintFiles = none ∧
    (scan opts env fs).2.markdownFiles = none ∧
    (scan opts env fs).2.postFmtRan = false := by
  have hout : preFmtOutcome opts env fs = (l₁, .error (enoent bad)) := by
    simp only [preFmtOutcome, hlist]
    exact preFmtReadAll_break hbad l₁ hok l₂
  have hp2 : (preFmtOutcome opts env fs).2 = .error (enoent bad) := by rw [hout]
  have hs := scan_err hp2
  refine ⟨hs, ?_, ?_, ?_, ?_, ?_⟩ <;> rw [hs] <;> simp [abortTrace, hout]

/-- Witness for the amended C4: the explicit file `a.ts` is missing, so the
invocation rejects before the script-lint pass. -/
theorem claim_C4_witness :
    preFmtFileList optsFixW envNil fsEmpty = some ([] ++ "a.ts" :: []) ∧
    fsEmpty "a.ts" = none ∧
    (scan optsFixW envNil fsEmpty = (.error (enoent "a.ts"), abortTrace optsFixW envNil fsEmpty) ∧
     (scan optsFixW envNil fsEmpty).2.preFmtReads = [] ∧
     (scan optsFixW envNil fsEmpty).2.eslintFiles = none ∧
     (scan optsFixW envNil fsEmpty).2.stylelintFiles = none ∧
     (scan optsFixW envNil fsEmpty).2.markdownFiles = none ∧
     (scan optsFixW envNil fsEmpty).2.postFmtRan = false) :=
  ⟨rfl, rfl, claim_C4_amended optsFixW envNil fsEmpty [] "a.ts" [] rfl
    (fun f hf => by simp at hf) rfl⟩

/-- C5: resolving the file set for an empty extension set yields an empty
result when an explicit file list was supplied, and the degenerate pattern
`**/*.\x7b\x7d` (an empty brace set, which under glob's brace-literal
semantics only matches names literally ending in `.\x7b\x7d`) otherwise —
never a pattern that matches every file. -/
theorem claim_C5_empty_ext (opts : ScanOptions) :
    (∀ l, opts.files = some l → getLintFiles opts [] = .inr []) ∧
    (opts.files = none →
      getLintFiles opts [] =
        .inl (pathJoin (pathJoin opts.cwd opts.includeDir) "**/*.\x7b\x7d")) ∧
    extPattern [] = "**/*.\x7b\x7d" ∧
    extPatternMatches [] "src/index.ts" = false := by
  refine ⟨?_, ?_, rfl, by decide⟩
  · intro l hl
    simp only [getLintFiles, hl]
    congr 1
    induction l with
    | nil => rfl
    | cons a t ih => simp [List.filter, ih]
  · intro hn
    simp [getLintFiles, hn, extPattern, joinComma]

/-- Witness for C5 at a file-list invocation and at a glob invocation. -/
theorem claim_C5_witness :
    (optsListW.files = some ["a.ts", "b.css", "c.md"] ∧ getLintFiles optsListW [] = .inr []) ∧
    (optsGlobW.files = none ∧
      getLintFiles optsGlobW [] = .inl (pathJoin (pathJoin "proj" "src") "**/*.\x7b\x7d")) :=
  ⟨⟨rfl, (claim_C5_empty_ext optsListW).1 ["a.ts", "b.css", "c.md"] rfl⟩,
   ⟨rfl, (claim_C5_empty_ext optsGlobW).2.1 rfl⟩⟩

/-- C6: with an explicit file list, each tool pass receives exactly the
entries of that list whose extension is in that tool's extension set, in
the original order. -/
theorem claim_C6_explicit_files (opts : ScanOptions) (env : Env) (fs : FS) (l : List String)
    (hfiles : opts.files = some l)
    (h : (preFmtOutcome opts env fs).2 = .ok ()) :
    (scan opts env fs).2.eslintFiles =
      some (.inr (l.filter (fun name => ESLINT_FILE_EXT.contains (extname name)))) ∧
    ((loadedConfig env fs opts.cwd).enableStylelint ≠ some false →
      (scan opts env fs).2.stylelintFiles =
        some (.inr (l.filter (fun name => STYLELINT_FILE_EXT.contains (extname name))))) ∧
    ((loadedConfig env fs opts.cwd).enableMarkdownlint ≠ some false →
      (scan opts env fs).2.markdownFiles =
        some (.inr (l.filter (fun name => MARKDOWN_LINT_FILE_EXT.contains (extname name))))) := by
  rw [scan_ok h]
  refine ⟨?_, ?_, ?_⟩
  · simp [okTrace, getLintFiles, hfiles]
  · intro hs
    simp [okTrace, getLintFiles, hfiles, beq_eq_false_iff_ne, hs]
  · intro hm
    simp [okTrace, getLintFiles, hfiles, markdownFileSpec, beq_eq_false_iff_ne, hm]

/-- Witness for C6: the spec's scenario `['a.ts', 'b.css', 'c.md']` — the
script-lint pass sees only `a.ts`, style-lint only `b.css`, markdown-lint
only `c.md`. -/
theorem claim_C6_witness :
    optsListW.files = some ["a.ts", "b.css", "c.md"] ∧
    (scan optsListW envNil fsEmpty).2.eslintFiles = some (.inr ["a.ts"]) ∧
    (scan optsListW envNil fsEmpty).2.stylelintFiles = some (.inr ["b.css"]) ∧
    (scan optsListW envNil fsEmpty).2.markdownFiles = some (.inr ["c.md"]) := by
  have h := claim_C6_explicit_files optsListW envNil fsEmpty ["a.ts", "b.css", "c.md"] rfl rfl
  exact ⟨rfl, h.1, h.2.1 (by decide), h.2.2 (by decide)⟩

/-- C8: reading an ignore file returns its lines trimmed, with blank lines
and `#`-comment lines removed, preserving order (the result is a sublist
of the trimmed line sequence); a missing file yields `[]` without error;
and reading the same unchanged file twice (any two filesystems agreeing at
that path) yields the identical, same-ordered list. -/
theorem claim_C8_read_ignore (fs₁ fs₂ : FS) (cwd p : String)
    (hsame : fs₁ (pathJoin cwd p) = fs₂ (pathJoin cwd p)) :
    readIgnore fs₁ cwd p = readIgnore fs₂ cwd p ∧
    (fs₁ (pathJoin cwd p) = none → readIgnore fs₁ cwd p = []) ∧
    (∀ content, fs₁ (pathJoin cwd p) = some content →
      (readIgnore fs₁ cwd p).Sublist ((splitLines content).map jsTrim) ∧
      ∀ s ∈ readIgnore fs₁ cwd p, jsTrim s = s ∧ s ≠ "" ∧ startsHash s = false) := by
  refine ⟨readIgnore_agree hsame, ?_, ?_⟩
  · intro hnone
    simp [readIgnore, hnone]
  · intro content hc
    have hr : readIgnore fs₁ cwd p = ((splitLines content).map jsTrim).filter keepIgnoreLine := by
      simp [readIgnore, hc]
    constructor
    · rw [hr]
      exact List.filter_sublist _
    · intro s hsm
      rw [hr] at hsm
      obtain ⟨hin, hkeep⟩ := List.mem_filter.mp hsm
      obtain ⟨a, _, rfl⟩ := List.mem_map.mp hin
      rw [keepIgnoreLine, Bool.and_eq_true] at hkeep
      obtain ⟨ht, hh⟩ := hkeep
      refine ⟨jsTrim_idem a, ?_, ?_⟩
      · intro heq
        rw [heq] at ht
        exact absurd ht (by decide)
      · simpa using hh

/-- Witness for C8: a concrete ignore file with padding, a blank line, a
comment line and a CRLF line ending. -/
theorem claim_C8_witness :
    readIgnore fsIgnW "proj" ".eslintignore" = ["a.js", "b.js"] ∧
    (readIgnore fsIgnW "proj" ".eslintignore").Sublist
      ((splitLines "  a.js \r\n\n# c\nb.js\n\t").map jsTrim) ∧
    ∀ s ∈ readIgnore fsIgnW "proj" ".eslintignore",
      jsTrim s = s ∧ s ≠ "" ∧ startsHash s = false := by
  have h := claim_C8_read_ignore fsIgnW fsIgnW "proj" ".eslintignore" rfl
  have h2 := h.2.2 "  a.js \r\n\n# c\nb.js\n\t" rfl
  exact ⟨by decide, h2.1, h2.2⟩

/-- C9: with `outputReport` set, the written report file holds the `results`
sequence serialized as JSON (pretty-printing modelled at the JSON-value
level), and parsing that content yields exactly the ScanResults of the
returned report, field for field; the file is named
`<processCwd>/f2elint-report.json`. -/
theorem claim_C9_report_roundtrip (opts : ScanOptions) (env : Env) (fs : FS)
    (report : ScanReport)
    (hrep : opts.outputReport = true)
    (h : (scan opts env fs).1 = .ok report) :
    (scan opts env fs).2.reportJson = some (Json.arr (report.results.map encodeScanResult)) ∧
    decodeResults (Json.arr (report.results.map encodeScanResult)) = some report.results ∧
    (scan opts env fs).2.reportPath =
      some (pathJoin env.processCwd (PKG_NAME ++ "-report.json")) := by
  cases hp : (preFmtOutcome opts env fs).2 with
  | error e =>
    rw [scan_err hp] at h
    simp at h
  | ok u =>
    cases u
    have hsc := scan_ok hp
    rw [hsc] at h
    simp only [Except.ok.injEq] at h
    subst h
    refine ⟨?_, decodeResults_encode _, ?_⟩
    · rw [hsc]
      simp [okTrace, hrep, mkReport]
    · rw [hsc]
      simp [okTrace, hrep]

/-- Witness for C9 at a concrete invocation producing one style result. -/
theorem claim_C9_witness :
    optsRepW.outputReport = true ∧
    (scan optsRepW envResW fsEmpty).1 = .ok repW ∧
    ((scan optsRepW envResW fsEmpty).2.reportJson =
        some (Json.arr (repW.results.map encodeScanResult)) ∧
      decodeResults (Json.arr (repW.results.map encodeScanResult)) = some repW.results ∧
      (scan optsRepW envResW fsEmpty).2.reportPath =
        some (pathJoin envResW.processCwd (PKG_NAME ++ "-report.json"))) :=
  ⟨rfl, rfl, claim_C9_report_roundtrip optsRepW envResW fsEmpty repW rfl rfl⟩

/-- Counterexample to C10: two invocations that differ only in the contents
of `.eslintignore` (`fsTenB` is `fsTenA` with that one file's contents
blanked) hand different file sets to the script-lint pass: changing the
ignore list changes which files the pre-fix pass reads, a failing read
aborts the second invocation, and script-lint never receives a file set
there — the ignore files do influence the lint passes through that abort
channel. -/
theorem claim_C10_counterexample :
    (scan optsTenW envTenW fsTenB).2.eslintFiles = none ∧
    (scan optsTenW envTenW fsTenA).2.eslintFiles ≠
      (scan optsTenW envTenW fsTenB).2.eslintFiles := by
  refine ⟨rfl, ?_⟩
  have hA : (scan optsTenW envTenW fsTenA).2.eslintFiles =
      some (.inl (pathJoin (pathJoin "proj" "src") (extPattern ESLINT_FILE_EXT))) := rfl
  have hB : (scan optsTenW envTenW fsTenB).2.eslintFiles = none := rfl
  rw [hA, hB]
  simp

/-- C10 as amended: provided the pre-fix formatting pass completes in both
invocations (its uncaught read failures are the one channel through which
ignore contents can reach later passes, by aborting the run), two
invocations differing only in the contents of `.eslintignore` and
`.stylelintignore` hand identical file sets to the script-lint, style-lint
and markdown-lint passes: the ignore lists are applied only when expanding
the pre-fix glob, and the markdown pass uses only the fixed
`node_modules/**` ignore. -/
theorem claim_C10_amended (opts : ScanOptions) (env : Env) (fs₁ fs₂ : FS)
    (hagree : ∀ p, p ≠ pathJoin opts.cwd ".eslintignore" →
      p ≠ pathJoin opts.cwd ".stylelintignore" → fs₁ p = fs₂ p)
    (h₁ : (preFmtOutcome opts env fs₁).2 = .ok ())
    (h₂ : (preFmtOutcome opts env fs₂).2 = .ok ()) :
    (scan opts env fs₁).2.eslintFiles = (scan opts env fs₂).2.eslintFiles ∧
    (scan opts env fs₁).2.stylelintFiles = (scan opts env fs₂).2.stylelintFiles ∧
    (scan opts env fs₁).2.markdownFiles = (scan opts env fs₂).2.markdownFiles := by
  have hne₁ : pathJoin opts.cwd (PKG_NAME ++ ".config.js") ≠ pathJoin opts.cwd ".eslintignore" :=
    pathJoin_ne_of_ne _ (by decide)
  have hne₂ : pathJoin opts.cwd (PKG_NAME ++ ".config.js") ≠ pathJoin opts.cwd ".stylelintignore" :=
    pathJoin_ne_of_ne _ (by decide)
  have hcfg : loadedConfig env fs₁ opts.cwd = loadedConfig env fs₂ opts.cwd :=
    loadedConfig_agree (hagree _ hne₁ hne₂)
  rw [scan_ok h₁, scan_ok h₂]
  refine ⟨rfl, ?_, ?_⟩ <;> simp [okTrace, hcfg]

/-- Witness for the amended C10: the counterexample's filesystem pair, but
without the fix flag — the pre-fix pass is skipped, both invocations
complete, and all three lint passes receive identical file sets. -/
theorem claim_C10_witness :
    (scan optsGlobW envNil fsTenA).2.eslintFiles = (scan optsGlobW envNil fsTenB).2.eslintFiles ∧
    (scan optsGlobW envNil fsTenA).2.stylelintFiles =
      (scan optsGlobW envNil fsTenB).2.stylelintFiles ∧
    (scan optsGlobW envNil fsTenA).2.markdownFiles =
      (scan optsGlobW envNil fsTenB).2.markdownFiles :=
  claim_C10_amended optsGlobW envNil fsTenA fsTenB
    (fun _ hne _ => (if_neg hne).symm) rfl rfl

end F2ELint
